import Mathlib

/-!
Shallow embedding of the request-processing pipeline implemented in
`src/app/api/process-pdf/route.ts` (the exported POST handler):
reply normalization, topic-sentinel parsing, markup extraction with
boundary repair, prompt composition, and the compile/assemble tail.

JavaScript strings are modelled as `List Char`; the JavaScript regular
expression matches used by the route are implemented as explicit
scanning functions with the same leftmost-match semantics.
-/

namespace ProcessPdf

/-- JavaScript strings, modelled as lists of characters. -/
abbrev Str := List Char

/-- Characters removed by JavaScript `String.prototype.trim`: the
ECMAScript WhiteSpace set (tab, vertical tab, form feed, space,
no-break space, BOM, and the Unicode space separators) together with
the LineTerminator set (LF, CR, LS, PS). -/
def isWsChar (c : Char) : Bool :=
  c = ' ' || c = '\t' || c = '\n' || c = '\r' ||
  c = '\x0b' || c = '\x0c' || c = '\u00a0' || c = '\ufeff' ||
  c = '\u1680' || c = '\u2000' || c = '\u2001' || c = '\u2002' ||
  c = '\u2003' || c = '\u2004' || c = '\u2005' || c = '\u2006' ||
  c = '\u2007' || c = '\u2008' || c = '\u2009' || c = '\u200a' ||
  c = '\u2028' || c = '\u2029' || c = '\u202f' || c = '\u205f' ||
  c = '\u3000'

/-- JavaScript `String.prototype.trim`. -/
def trimJS (s : Str) : Str :=
  ((s.dropWhile isWsChar).reverse.dropWhile isWsChar).reverse

/-- Index of the first occurrence of `target` as a contiguous substring
(JavaScript `String.prototype.indexOf`, with `none` for `-1`). -/
def indexOfSub? (target : Str) : Str → Option Nat
  | [] => if target.isPrefixOf ([] : Str) then some 0 else none
  | c :: t =>
    if target.isPrefixOf (c :: t) then some 0
    else (indexOfSub? target t).map (· + 1)

/-- Index of the last occurrence of `target` as a contiguous substring
(JavaScript `String.prototype.lastIndexOf`, with `none` for `-1`). -/
def lastIndexOfSub? (target : Str) : Str → Option Nat
  | [] => if target.isPrefixOf ([] : Str) then some 0 else none
  | c :: t =>
    match lastIndexOfSub? target t with
    | some j => some (j + 1)
    | none => if target.isPrefixOf (c :: t) then some 0 else none

/-- Case-insensitive character comparison, as under a JavaScript
regular expression `i` flag. -/
def ciEq (a b : Char) : Bool := a.toLower == b.toLower

/-- Case-insensitive prefix test. -/
def ciPrefixOf : Str → Str → Bool
  | [], _ => true
  | _ :: _, [] => false
  | a :: n, b :: l => ciEq a b && ciPrefixOf n l

/-- Index of the first case-insensitive occurrence of `target`. -/
def ciIndexOfSub? (target : Str) : Str → Option Nat
  | [] => if ciPrefixOf target [] then some 0 else none
  | c :: t =>
    if ciPrefixOf target (c :: t) then some 0
    else (ciIndexOfSub? target t).map (· + 1)

/-- The opener of the topic-footer sentinel emitted by the model,
`[[QUESTION_TYPES:` (17 characters). -/
def questionsOpen : Str := "[[QUESTION_TYPES:".toList

/-- The closer of the topic-footer sentinel, `]]`. -/
def sentinelClose : Str := "]]".toList

/-- A fenced-code-block delimiter, three backquote characters. -/
def ticks : Str := "```".toList

/-- The document-open marker `\documentclass` (14 characters). -/
def docOpen : Str := "\\documentclass".toList

/-- The document-close marker `\end{document}` (14 characters). -/
def docClose : Str := "\\end{document}".toList

/-- Models `responseText.match(/\[\[QUESTION_TYPES:([\s\S]*?)\]\]/)` from the
route: leftmost occurrence of the sentinel opener that is followed by
`]]`, with the non-greedy interior as the capture group. Returns
`(whole match, captured interior)`. If the leftmost opener has no
closer after it, no later opener has one either, so the whole match
fails, exactly as the regular expression does. -/
def questionsMatch : Str → Option (Str × Str)
  | [] => none
  | c :: t =>
    if questionsOpen.isPrefixOf (c :: t) then
      match indexOfSub? sentinelClose ((c :: t).drop 17) with
      | some j =>
        let inner := ((c :: t).drop 17).take j
        some (questionsOpen ++ inner ++ sentinelClose, inner)
      | none => none
    else questionsMatch t

/-- JavaScript `String.prototype.replace` with a plain-string pattern:
remove the first occurrence of `target`. -/
def replaceFirst (s target : Str) : Str :=
  match indexOfSub? target s with
  | some i => s.take i ++ s.drop (i + target.length)
  | none => s

/-- Lines 145–156 of the route: parse the topic-footer sentinel.
Returns the text with the matched sentinel removed, together with
`detectedQuestions`, the captured interior split on commas, each entry
trimmed, empty entries dropped (`filter(Boolean)`). -/
def parseQuestions (s : Str) : Str × List Str :=
  match questionsMatch s with
  | some (whole, inner) =>
    (replaceFirst s whole,
      ((inner.splitOn ',').map trimJS).filter (fun t => !t.isEmpty))
  | none => (s, [])

/-- The optional language tag of a fenced block, `(?:latex|tex)?` under
the `i` flag: consume a leading `latex` or `tex`, case-insensitively. -/
def fenceTag (r : Str) : Str :=
  if ciPrefixOf ("latex".toList) r then r.drop 5
  else if ciPrefixOf ("tex".toList) r then r.drop 3
  else r

/-- The optional newline after the language tag, `\n?`. -/
def dropNl : Str → Str
  | '\n' :: t => t
  | r => r

/-- Models `responseText.match(/```(?:latex|tex)?\n?([\s\S]*?)```/i)` from the
route, returning the capture group (the fenced interior). The greedy
optional tag and newline never need backtracking because neither can
contain a backquote, so consuming them cannot hide the closer. -/
def codeBlockMatch : Str → Option Str
  | [] => none
  | c :: t =>
    if ticks.isPrefixOf (c :: t) then
      let r := dropNl (fenceTag ((c :: t).drop 3))
      match indexOfSub? ticks r with
      | some j => some (r.take j)
      | none => codeBlockMatch t
    else codeBlockMatch t

/-- Models `responseText.match(/(\\documentclass[\s\S]*?\\end\{document\})/i)`
from the route: the span from the first case-insensitive occurrence of
`\documentclass` to the first case-insensitive occurrence of
`\end{document}` after it. If the first opener has no closer after it,
a later opener cannot have one either, so the match fails. -/
def docMatch (s : Str) : Option Str :=
  match ciIndexOfSub? docOpen s with
  | some p =>
    match ciIndexOfSub? docClose ((s.drop p).drop 14) with
    | some j => some ((s.drop p).take (14 + j + 14))
    | none => none
  | none => none

/-- Lines 179–184 of the route: if the chosen text does not start with
`\documentclass` (case-sensitively), drop everything before its first
occurrence when there is one. -/
def repairStart (t : Str) : Str :=
  if docOpen.isPrefixOf t then t
  else
    match indexOfSub? docOpen t with
    | some i => t.drop i
    | none => t

/-- Lines 185–190 of the route: if the chosen text does not end with
`\end{document}` (case-sensitively), cut after its last occurrence when
there is one (`substring(0, endIdx + 14)`). -/
def repairEnd (t : Str) : Str :=
  if docClose.isSuffixOf t then t
  else
    match lastIndexOfSub? docClose t with
    | some i => t.take (i + 14)
    | none => t

/-- Lines 158–190 of the route: markup extraction over the
sentinel-stripped text. Strategy 1 is the fenced block (trimmed
interior); strategy 2 the document-structure span (trimmed); the
fallback is the whole text trimmed; boundary repair runs regardless of
the strategy that produced the text. -/
def extractMarkup (s : Str) : Str :=
  let base :=
    match codeBlockMatch s with
    | some interior => trimJS interior
    | none =>
      match docMatch s with
      | some span => trimJS span
      | none => trimJS s
  repairEnd (repairStart base)

/-- The extraction stage as a whole, as the specification's `extract`:
topic-footer sentinel removal, then markup extraction with boundary
repair. -/
def extract (s : Str) : Str := extractMarkup (parseQuestions s).1

/-- The topic list produced by the extraction stage. -/
def extractTopics (s : Str) : List Str := (parseQuestions s).2

/-! ## Reply normalization (lines 124–141 of the route) -/

/-- One entry of `candidate.content.parts`: a `thought` flag and an
optional `text` field. -/
structure GeminiPart where
  thought : Bool
  text : Option Str

/-- The duck-typed SDK reply, as the route inspects it:
`textFn = some s` when `typeof r.text === 'function'` and the call
returns the string `s`; `responseTextFn = some s` when `r.response`
exists with a callable `text` returning `s`; `candidateParts` is
`r.candidates?.[0]?.content?.parts` when that chain is defined. -/
structure GeminiReply where
  textFn : Option Str
  responseTextFn : Option Str
  candidateParts : Option (List GeminiPart)

/-- JavaScript truthiness of an optional string in an `||` chain:
`undefined` and the empty string are falsy. -/
def jsTruthy (o : Option Str) : Option Str :=
  o.bind (fun s => if s.isEmpty then none else some s)

/-- Models `candidate?.content?.parts?.find((p) => !p.thought)?.text`. -/
def firstNonThoughtText (r : GeminiReply) : Option Str :=
  (r.candidateParts.bind (fun ps => ps.find? (fun p => !p.thought))).bind
    GeminiPart.text

/-- Lines 137–141 of the route:
`typeof r.text === 'function' ? r.text() :
 r.response?.text?.() || candidate?.content?.parts?.find(...)?.text || ''`. -/
def normalizeReply (r : GeminiReply) : Str :=
  match r.textFn with
  | some s => s
  | none =>
    match jsTruthy r.responseTextFn with
    | some s => s
    | none =>
      match jsTruthy (firstNonThoughtText r) with
      | some s => s
      | none => []

/-! ## Prompt composition (lines 77–113 of the route)

The template literal is decomposed at its interpolation points; each
fragment below is the corresponding literal text of the source. -/

/-- The fixed persona/protocol header, up to the regeneration
interpolation. -/
def promptHeader : Str :=
  ("ROLE: Elite Professor.\n" ++
   "GOAL: Create ONE unified, novel practice exam based on provided material.\n\n" ++
   "SOURCE PROTOCOL:\n" ++
   "- Content: User has solved source PDF questions. Generate NEW variants testing identical logic.\n" ++
   "- Total Synthesis: Analyze ALL source files. Select mix of ~15-20 questions (standard exam length).\n" ++
   "- Selection: Prioritize high-impact/distinct concepts over simple repetition.\n\n").toList

/-- The regeneration block up to the embedded previous-context text. -/
def regenPre : Str :=
  ("\nREGEN PROTOCOL (ACTIVE):\n" ++
   "- History: User solved a previous attempt. DO NOT reuse values, wording, or structure.\n" ++
   "- Variance: Change order, mix concepts, vary part counts.\n" ++
   "- Previous Attempt:\n```latex\n").toList

/-- The regeneration block after the embedded previous-context text. -/
def regenPost : Str := "\n```\n".toList

/-- The literal text between the regeneration and blueprint
interpolations. -/
def promptMid : Str := "\n\n".toList

/-- The blueprint block up to the joined topic list. -/
def blueprintPre : Str :=
  ("\nSOURCE BLUEPRINT (MANDATORY):\n- Target these specific types: [").toList

/-- The blueprint block after the joined topic list. -/
def blueprintPost : Str :=
  ("]\n- Strategy: Create fresh instances for each type. Change context/functions/values.\n").toList

/-- The fixed output-contract footer after the blueprint
interpolation. -/
def promptFooter : Str :=
  ("\n\nSTRICT CONSTRAINTS:\n" ++
   "1. NO DUPLICATES: Question content must diverge significantly from ALL sources.\n" ++
   "2. COMPLEXITY: Never easier. Maintain or slightly increase mathematical/logical rigor.\n" ++
   "3. SINGLE DOCUMENT: One unified LaTeX outcome. Flow by topic, not by source file.\n" ++
   "4. DOCUMENT FORMAT: Exact mimicry of source LaTeX style, layout, and packages.\n" ++
   "5. NO CHATTER: Zero conversational text, zero markdown blocks. Return LaTeX only.\n" ++
   "6. STABILITY: Wrap MCQs in `minipage\x7b\\linewidth\x7d` to prevent page breaks.\n\n" ++
   "OUTPUT FORMAT:\n- Start: \\documentclass\n- End: \\end{document}\n" ++
   "- FOOTER (MANDATORY): After \\end{document}, list EVERY source question type found:\n" ++
   "[[QUESTION_TYPES: Type 1, Type 2, ...]]").toList

/-- JavaScript `String.prototype.substring` (clamps both indices to the
length and swaps them when out of order). -/
def substringJS (s : Str) (a b : Nat) : Str :=
  (s.take (max (min a s.length) (min b s.length))).drop
    (min (min a s.length) (min b s.length))

/-- The `TypeError` message raised by
`(formData.get('previousContext') as string).substring(0, 15000)` when
the field is absent (`formData.get` returns `null`). -/
def nullSubstringMsg : Str :=
  "Cannot read properties of null (reading 'substring')".toList

/-- The `SyntaxError` raised by `JSON.parse` on malformed input. -/
def jsonSyntaxMsg : Str := "Unexpected token in JSON".toList

/-- JSON insignificant whitespace. -/
def jsonWs (c : Char) : Bool := c = ' ' || c = '\t' || c = '\n' || c = '\r'

/-- Drop JSON insignificant whitespace. -/
def skipJsonWs (s : Str) : Str := s.dropWhile jsonWs

/-- The body of a JSON string after its opening quote: characters up to
the closing quote. -/
def jsonStringBody : Str → Option (Str × Str)
  | [] => none
  | '"' :: r => some ([], r)
  | c :: r => (jsonStringBody r).map (fun p => (c :: p.1, p.2))

/-- One JSON string literal (escape-free fragment). -/
def parseJsonString : Str → Option (Str × Str)
  | '"' :: t => jsonStringBody t
  | _ => none

/-- Comma-separated JSON strings after the opening bracket, with fuel
bounded by the input length. -/
def parseArrAux : Nat → Str → Except Str (List Str)
  | 0, _ => .error jsonSyntaxMsg
  | fuel + 1, s =>
    match parseJsonString (skipJsonWs s) with
    | none => .error jsonSyntaxMsg
    | some (str, rest) =>
      match skipJsonWs rest with
      | ',' :: r2 => (parseArrAux fuel r2).map (fun l => str :: l)
      | ']' :: r2 =>
        if (skipJsonWs r2).isEmpty then .ok [str] else .error jsonSyntaxMsg
      | _ => .error jsonSyntaxMsg

/-- Models the platform `JSON.parse` as used at line 97 of the route,
restricted to JSON arrays of escape-free strings. On that fragment it
agrees with `JSON.parse`, and on every input that is not valid JSON it
raises exactly as `JSON.parse` does. Well-formed JSON of any other
shape (escaped strings, arrays of numbers, and so on) lies outside the
modelled fragment and is conservatively reported as an error here even
though the route would accept some such values; the model is used only
through hypotheses on its outcome, so this narrows which requests the
success-path theorems cover without making any of them easier. -/
def parseJsonStringList (s : Str) : Except Str (List Str) :=
  match skipJsonWs s with
  | '[' :: t =>
    match skipJsonWs t with
    | ']' :: r =>
      if (skipJsonWs r).isEmpty then .ok [] else .error jsonSyntaxMsg
    | _ => parseArrAux (t.length + 1) t
  | _ => .error jsonSyntaxMsg

/-- The regeneration interpolation,
`isRegenerate ? \`...${prev.substring(0, 15000)}...\` : ''`: when the
flag is set the previous-context field is dereferenced — `null` when
absent, which throws — and its first 15,000 characters are embedded. -/
def regenSection (isRegen : Bool) (prevCtx : Option Str) : Except Str Str :=
  if isRegen then
    match prevCtx with
    | none => .error nullSubstringMsg
    | some p => .ok (regenPre ++ substringJS p 0 15000 ++ regenPost)
  else .ok []

/-- The blueprint interpolation,
`formData.get('questions') ? \`...[${JSON.parse(q).join(', ')}]...\` : ''`:
an absent or empty (falsy) field yields nothing; otherwise the field is
parsed as JSON and joined. -/
def questionsSection (q : Option Str) : Except Str Str :=
  match q with
  | none => .ok []
  | some qs =>
    if qs.isEmpty then .ok []
    else
      match parseJsonStringList qs with
      | .error e => .error e
      | .ok items =>
        .ok (blueprintPre ++ List.intercalate (", ".toList) items ++
          blueprintPost)

/-- The whole instruction template of lines 77–113: fixed header and
footer with the two conditional interpolations in between. Exceptions
raised while evaluating an interpolation propagate. -/
def composePrompt (isRegen : Bool) (prevCtx : Option Str) (q : Option Str) :
    Except Str Str := do
  let rs ← regenSection isRegen prevCtx
  let qs ← questionsSection q
  return promptHeader ++ rs ++ promptMid ++ qs ++ promptFooter

/-! ## Compilation and response assembly (lines 192–240 of the route) -/

/-- Outcome of the external `pdflatex` invocation: the process ran and
the expected artifact exists (`success`, with its bytes standing in for
the base64 payload), the `exec` promise rejected or threw
(`execFail`, carrying `compileError.message`), or the process exited
cleanly but produced no artifact (`noArtifact`). -/
inductive CompileOutcome where
  | success (pdfBytes : Str)
  | execFail (message : Str)
  | noArtifact

/-- Every outcome other than an artifact-producing run. -/
def CompileOutcome.isFailure : CompileOutcome → Bool
  | .success _ => false
  | .execFail _ => true
  | .noArtifact => true

/-- Lines 201–225 of the route: the try/catch around compilation.
Returns `(pdfBase64, pdfError)`. A missing artifact throws
`Error('PDF file not created')`, caught by the same handler; the
message of a caught error is prefixed, with `'Unknown error'`
substituted for a falsy (empty) message. -/
def runCompile : CompileOutcome → Option Str × Option Str
  | .success bytes => (some bytes, none)
  | .execFail m =>
    (none, some ("PDF compilation failed: ".toList ++
      if m.isEmpty then "Unknown error".toList else m))
  | .noArtifact =>
    (none, some ("PDF compilation failed: ".toList ++
      "PDF file not created".toList))

/-- The JSON body and status of a `NextResponse.json` reply; fields
absent from a given body are `none`. -/
structure ApiResponse where
  status : Nat
  tex : Option Str
  pdfBase64 : Option Str
  questions : Option (List Str)
  error : Option Str

/-- Everything the POST handler consumes: the multipart fields, the
environment credential check, the model call (which either throws or
yields a reply value), and the external compiler's behaviour. -/
structure ReqEnv where
  files : List Str
  hasApiKey : Bool
  regenerateField : Option Str
  previousContext : Option Str
  questions : Option Str
  modelCall : Except Str GeminiReply
  compile : CompileOutcome

/-- The exported POST handler of the route: validation (400/500),
prompt composition (exceptions reach the outer catch, 500), the model
call (failure reaches the outer catch, 500), reply normalization,
sentinel parsing, markup extraction, best-effort compilation, and the
200 response assembly. -/
def POST (env : ReqEnv) : ApiResponse :=
  if env.files.isEmpty then
    ⟨400, none, none, none, some ("No files uploaded".toList)⟩
  else if env.hasApiKey = false then
    ⟨500, none, none, none, some ("Missing API Key".toList)⟩
  else
    match composePrompt (env.regenerateField == some ("true".toList))
        env.previousContext env.questions with
    | .error e => ⟨500, none, none, none, some e⟩
    | .ok _prompt =>
      match env.modelCall with
      | .error e => ⟨500, none, none, none, some e⟩
      | .ok reply =>
        let responseText := normalizeReply reply
        let pq := parseQuestions responseText
        let texContent := extractMarkup pq.1
        let co := runCompile env.compile
        ⟨200, some texContent, co.1, some pq.2, co.2⟩

/-! ## Auxiliary predicates and claim-side comparator definitions -/

/-- The first character, if any, is not trimmable whitespace. -/
def HeadOk (l : Str) : Prop := ∀ c ∈ l.head?, isWsChar c = false

/-- The last character, if any, is not trimmable whitespace. -/
def LastOk (l : Str) : Prop := ∀ c ∈ l.getLast?, isWsChar c = false

/-- The text either begins with the document-open marker or does not
contain it (case-sensitively) — the start repair is then neutral. -/
def DocStartOk (t : Str) : Prop := docOpen <+: t ∨ ¬ docOpen <:+: t

/-- The text either ends with the document-close marker or does not
contain it (case-sensitively) — the end repair is then neutral. -/
def DocEndOk (t : Str) : Prop := docClose <:+ t ∨ ¬ docClose <:+: t

/-- The text chosen by the three extraction strategies, before trimming
and boundary repair. -/
def chosenText (s : Str) : Str :=
  match codeBlockMatch s with
  | some interior => interior
  | none =>
    match docMatch s with
    | some span => span
    | none => s

/-- Whether `n` occurs as a contiguous substring of `l`. -/
def occursSub (n l : Str) : Bool := (indexOfSub? n l).isSome

/-- Follows the specification's words for the topic list: split the
sentinel interior on commas, trim each entry, and de-duplicate while
preserving first-seen order (the specification does not drop empty
entries). -/
def claimedTopics (inner : Str) : List Str :=
  ((inner.splitOn ',').map trimJS).foldl
    (fun acc t => if acc.contains t then acc else acc ++ [t]) []

/-- Follows the specification's words for the reply-shape fallback: the
string representation of the raw reply value. JavaScript `String()` of
a non-null SDK reply object is never the empty string. -/
def claimedRawReplyString (_ : GeminiReply) : Str := "[object Object]".toList

/-- Follows the specification's words for the reasoning filter:
concatenate all segments that are not flagged as internal reasoning. -/
def specConcatNonThought (r : GeminiReply) : Str :=
  match r.candidateParts with
  | some ps => ((ps.filter (fun p => !p.thought)).map (fun p => p.text.getD [])).flatten
  | none => []

/-! ## Infrastructure: substring search, trimming, and repairs -/

theorem take_isPrefix (n : Nat) (l : Str) : l.take n <+: l :=
  List.take_prefix n l

theorem isPrefixOf_iff {l₁ l₂ : Str} : l₁.isPrefixOf l₂ = true ↔ l₁ <+: l₂ :=
  List.isPrefixOf_iff_prefix

theorem indexOfSub?_some_isPrefix {n : Str} :
    ∀ (l : Str) (i : Nat), indexOfSub? n l = some i → n <+: l.drop i := by
  intro l
  induction l with
  | nil =>
    intro i h
    simp only [indexOfSub?] at h
    split at h
    · cases h
      exact isPrefixOf_iff.mp (by assumption)
    · cases h
  | cons c t ih =>
    intro i h
    simp only [indexOfSub?] at h
    split at h
    · cases h
      exact isPrefixOf_iff.mp (by assumption)
    · cases hk : indexOfSub? n t with
      | none => rw [hk] at h; cases h
      | some j =>
        rw [hk] at h
        simp only [Option.map_some'] at h
        cases h
        exact ih j hk

theorem indexOfSub?_isSome_iff {n : Str} (hn : n ≠ []) :
    ∀ (l : Str), (indexOfSub? n l).isSome = true ↔ n <:+: l := by
  intro l
  induction l with
  | nil =>
    simp only [indexOfSub?, List.infix_nil]
    cases n with
    | nil => exact absurd rfl hn
    | cons a as => simp [List.isPrefixOf]
  | cons c t ih =>
    simp only [indexOfSub?]
    split
    · have hp : n <+: c :: t := isPrefixOf_iff.mp (by assumption)
      simp [hp.isInfix]
    · have hnp : ¬ n <+: c :: t := by
        intro hp
        have := isPrefixOf_iff.mpr hp
        simp_all
      rw [List.infix_cons_iff]
      simp only [Option.isSome_map']
      rw [ih]
      exact ⟨fun h => Or.inr h, fun h => h.elim (fun h1 => absurd h1 hnp) id⟩

theorem indexOfSub?_eq_none_iff {n : Str} (hn : n ≠ []) (l : Str) :
    indexOfSub? n l = none ↔ ¬ n <:+: l := by
  rw [← indexOfSub?_isSome_iff hn l]
  cases indexOfSub? n l <;> simp

theorem lastIndexOfSub?_some_isPrefix {n : Str} :
    ∀ (l : Str) (i : Nat), lastIndexOfSub? n l = some i → n <+: l.drop i := by
  intro l
  induction l with
  | nil =>
    intro i h
    simp only [lastIndexOfSub?] at h
    split at h
    · cases h
      exact isPrefixOf_iff.mp (by assumption)
    · cases h
  | cons c t ih =>
    intro i h
    cases hk : lastIndexOfSub? n t with
    | some j =>
      simp only [lastIndexOfSub?, hk] at h
      cases h
      exact ih j hk
    | none =>
      simp only [lastIndexOfSub?, hk] at h
      split at h
      · cases h
        exact isPrefixOf_iff.mp (by assumption)
      · cases h

theorem lastIndexOfSub?_isSome_iff {n : Str} (hn : n ≠ []) :
    ∀ (l : Str), (lastIndexOfSub? n l).isSome = true ↔ n <:+: l := by
  intro l
  induction l with
  | nil =>
    simp only [lastIndexOfSub?, List.infix_nil]
    cases n with
    | nil => exact absurd rfl hn
    | cons a as => simp [List.isPrefixOf]
  | cons c t ih =>
    cases hk : lastIndexOfSub? n t with
    | some j =>
      have hinf : n <:+: t := by rw [← ih]; simp [hk]
      simp only [lastIndexOfSub?, hk]
      simp [List.infix_cons_iff, hinf]
    | none =>
      have hnt : ¬ n <:+: t := by rw [← ih]; simp [hk]
      simp only [lastIndexOfSub?, hk]
      rw [List.infix_cons_iff]
      split
      · rename_i hcond
        have hp : n <+: c :: t := isPrefixOf_iff.mp hcond
        simp [hp]
      · rename_i hcond
        have hnp : ¬ n <+: c :: t := by
          intro hp
          rw [← isPrefixOf_iff] at hp
          simp_all
        simp [hnp, hnt]

theorem lastIndexOfSub?_eq_none_iff {n : Str} (hn : n ≠ []) (l : Str) :
    lastIndexOfSub? n l = none ↔ ¬ n <:+: l := by
  rw [← lastIndexOfSub?_isSome_iff hn l]
  cases lastIndexOfSub? n l <;> simp

theorem take_min_length (l : Str) (n : Nat) : l.take (min n l.length) = l.take n := by
  rcases Nat.le_total n l.length with h | h
  · rw [Nat.min_eq_left h]
  · rw [Nat.min_eq_right h, List.take_length, List.take_of_length_le h]

/-- If `n` occurs at position `i` of `l`, then cutting `l` right after
that occurrence appends exactly `n` to the part before it. -/
theorem take_add_length_of_prefix_drop {n l : Str} {i : Nat} (hn : n ≠ [])
    (h : n <+: l.drop i) : l.take (i + n.length) = l.take i ++ n := by
  have hi : i ≤ l.length := by
    by_contra hlt
    push_neg at hlt
    rw [List.drop_eq_nil_of_le (Nat.le_of_lt hlt)] at h
    exact hn (List.prefix_nil.mp h)
  obtain ⟨z, hz⟩ := h
  have hl : l = l.take i ++ (n ++ z) := by rw [hz, List.take_append_drop]
  have hlen : (l.take i).length = i := by
    simp [List.length_take, Nat.min_eq_left hi]
  calc l.take (i + n.length)
      = (l.take i ++ (n ++ z)).take ((l.take i).length + n.length) := by
        rw [← hl, hlen]
    _ = l.take i ++ (n ++ z).take n.length := List.take_append n.length
    _ = l.take i ++ n := by rw [List.take_left]

theorem IsSuffix.getLast?_eq {a b : Str} (h : a <:+ b) (ha : a ≠ []) :
    a.getLast? = b.getLast? := by
  obtain ⟨pre, rfl⟩ := h
  rw [List.getLast?_append]
  cases hg : a.getLast? with
  | none => exact absurd (List.getLast?_eq_none_iff.mp hg) ha
  | some x => simp

theorem headOk_dropWhile (l : Str) : HeadOk (l.dropWhile isWsChar) := by
  induction l with
  | nil => intro c hc; cases hc
  | cons a t ih =>
    rw [List.dropWhile_cons]
    split
    · exact ih
    · intro c hc
      cases hc
      simp_all

theorem dropWhile_eq_self_of_headOk {l : Str} (h : HeadOk l) :
    l.dropWhile isWsChar = l := by
  cases l with
  | nil => rfl
  | cons a t =>
    have ha : isWsChar a = false := h a rfl
    rw [List.dropWhile_cons, ha]
    simp

theorem trimJS_headOk (l : Str) : HeadOk (trimJS l) := by
  unfold trimJS
  intro c hc
  rw [List.head?_reverse] at hc
  set d := l.dropWhile isWsChar with hd
  set e := d.reverse.dropWhile isWsChar with he
  have hsuf : e <:+ d.reverse := List.dropWhile_suffix isWsChar
  cases hne : e with
  | nil => rw [hne] at hc; cases hc
  | cons x xs =>
    have hnn : e ≠ [] := by rw [hne]; simp
    have hlast : e.getLast? = d.reverse.getLast? := IsSuffix.getLast?_eq hsuf hnn
    rw [hlast, List.getLast?_reverse] at hc
    exact headOk_dropWhile l c hc

theorem trimJS_lastOk (l : Str) : LastOk (trimJS l) := by
  unfold trimJS
  intro c hc
  rw [List.getLast?_reverse] at hc
  exact headOk_dropWhile _ c hc

theorem trimJS_eq_self_of {l : Str} (h1 : HeadOk l) (h2 : LastOk l) :
    trimJS l = l := by
  unfold trimJS
  rw [dropWhile_eq_self_of_headOk h1]
  have hrev : HeadOk l.reverse := by
    intro c hc
    rw [List.head?_reverse] at hc
    exact h2 c hc
  rw [dropWhile_eq_self_of_headOk hrev, List.reverse_reverse]

theorem trimJS_isInfix (l : Str) : trimJS l <:+: l := by
  unfold trimJS
  set d := l.dropWhile isWsChar with hd
  set e := d.reverse.dropWhile isWsChar with he
  have h1 : e <:+ d.reverse := List.dropWhile_suffix isWsChar
  obtain ⟨pre, hp⟩ := h1
  have h2 : e.reverse <+: d := by
    refine ⟨pre.reverse, ?_⟩
    have := congrArg List.reverse hp
    simpa using this
  have h3 : d <:+ l := List.dropWhile_suffix isWsChar
  exact h2.isInfix.trans h3.isInfix

theorem trimJS_trimmed (l : Str) : trimJS (trimJS l) = trimJS l :=
  trimJS_eq_self_of (trimJS_headOk l) (trimJS_lastOk l)

/-! ## Structural facts about the matchers and repairs -/

theorem questionsMatch_some {s w inner : Str}
    (h : questionsMatch s = some (w, inner)) : w <:+: s ∧ w ≠ [] := by
  induction s with
  | nil => cases h
  | cons c t ih =>
    simp only [questionsMatch] at h
    split at h
    · rename_i hcond
      cases hk : indexOfSub? sentinelClose ((c :: t).drop 17) with
      | none => rw [hk] at h; cases h
      | some j =>
        rw [hk] at h
        simp only [Option.some.injEq, Prod.mk.injEq] at h
        obtain ⟨hw, hi⟩ := h
        have hop : questionsOpen <+: c :: t := isPrefixOf_iff.mp hcond
        have hcl : sentinelClose <+: ((c :: t).drop 17).drop j :=
          indexOfSub?_some_isPrefix _ j hk
        obtain ⟨z, hz⟩ := hcl
        have hs1 : (c :: t) = questionsOpen ++ (c :: t).drop 17 := by
          have : questionsOpen = (c :: t).take 17 := by
            have := List.prefix_iff_eq_take.mp hop
            simpa using this
          rw [this, List.take_append_drop]
        have hs2 : (c :: t).drop 17 =
            ((c :: t).drop 17).take j ++ (sentinelClose ++ z) := by
          rw [hz, List.take_append_drop]
        constructor
        · refine List.IsPrefix.isInfix ⟨z, ?_⟩
          rw [← hw]
          conv_rhs => rw [hs1, hs2]
          simp [List.append_assoc]
        · rw [← hw]
          simp [questionsOpen]
    · have := ih h
      exact ⟨this.1.trans (List.suffix_cons c t).isInfix, this.2⟩

theorem fenceTag_suffix (r : Str) : fenceTag r <:+ r := by
  unfold fenceTag
  split
  · exact List.drop_suffix 5 r
  · split
    · exact List.drop_suffix 3 r
    · exact List.suffix_refl r

theorem dropNl_suffix (r : Str) : dropNl r <:+ r := by
  unfold dropNl
  split
  · exact List.suffix_cons _ _
  · exact List.suffix_refl r

theorem codeBlockMatch_some_isInfix {s v : Str}
    (h : codeBlockMatch s = some v) : v <:+: s := by
  induction s with
  | nil => cases h
  | cons c t ih =>
    simp only [codeBlockMatch] at h
    split at h
    · cases hk : indexOfSub? ticks (dropNl (fenceTag ((c :: t).drop 3))) with
      | none =>
        rw [hk] at h
        exact (ih h).trans (List.suffix_cons c t).isInfix
      | some j =>
        rw [hk] at h
        simp only [Option.some.injEq] at h
        have hr : dropNl (fenceTag ((c :: t).drop 3)) <:+ c :: t :=
          ((dropNl_suffix _).trans (fenceTag_suffix _)).trans
            (List.drop_suffix 3 (c :: t))
        rw [← h]
        exact ((take_isPrefix j _).isInfix).trans hr.isInfix
    · exact (ih h).trans (List.suffix_cons c t).isInfix

theorem docMatch_some_isInfix {s v : Str} (h : docMatch s = some v) :
    v <:+: s := by
  unfold docMatch at h
  split at h
  · split at h
    · simp only [Option.some.injEq] at h
      rw [← h]
      exact ((take_isPrefix _ _).isInfix).trans (List.drop_suffix _ s).isInfix
    · cases h
  · cases h

theorem repairStart_isInfix (t : Str) : repairStart t <:+: t := by
  unfold repairStart
  split
  · exact List.infix_refl t
  · split
    · exact (List.drop_suffix _ t).isInfix
    · exact List.infix_refl t

theorem repairEnd_isInfix (t : Str) : repairEnd t <:+: t := by
  unfold repairEnd
  split
  · exact List.infix_refl t
  · split
    · exact (take_isPrefix _ t).isInfix
    · exact List.infix_refl t

theorem extractMarkup_isInfix (s : Str) : extractMarkup s <:+: s := by
  unfold extractMarkup
  refine (repairEnd_isInfix _).trans ((repairStart_isInfix _).trans ?_)
  split
  · rename_i interior hcb
    exact (trimJS_isInfix interior).trans (codeBlockMatch_some_isInfix hcb)
  · split
    · rename_i span hdm
      exact (trimJS_isInfix span).trans (docMatch_some_isInfix hdm)
    · exact trimJS_isInfix s

theorem docOpen_ne_nil : docOpen ≠ [] := by decide

theorem docClose_ne_nil : docClose ≠ [] := by decide

theorem repairStart_docStartOk (t : Str) : DocStartOk (repairStart t) := by
  unfold repairStart
  split
  · exact Or.inl (isPrefixOf_iff.mp (by assumption))
  · cases hk : indexOfSub? docOpen t with
    | some i =>
      simp only [hk]
      exact Or.inl (indexOfSub?_some_isPrefix t i hk)
    | none =>
      simp only [hk]
      exact Or.inr ((indexOfSub?_eq_none_iff docOpen_ne_nil t).mp hk)

theorem prefix_take_of_le {p l : Str} {k : Nat} (h : p <+: l)
    (hk : p.length ≤ k) : p <+: l.take k := by
  rw [List.prefix_iff_eq_take] at h ⊢
  rw [List.take_take, Nat.min_eq_left hk, ← h]

theorem repairEnd_preserves_docStartOk {t : Str} (h : DocStartOk t) :
    DocStartOk (repairEnd t) := by
  unfold repairEnd
  split
  · exact h
  · cases hk : lastIndexOfSub? docClose t with
    | some i =>
      simp only [hk]
      cases h with
      | inl hp =>
        refine Or.inl (prefix_take_of_le hp ?_)
        have : docOpen.length = 14 := by decide
        omega
      | inr hn =>
        refine Or.inr fun hin => hn ?_
        exact hin.trans (take_isPrefix _ t).isInfix
    | none =>
      simp only [hk]
      exact h

theorem repairEnd_docEndOk (t : Str) : DocEndOk (repairEnd t) := by
  unfold repairEnd
  split
  · exact Or.inl (List.isSuffixOf_iff_suffix.mp (by assumption))
  · cases hk : lastIndexOfSub? docClose t with
    | some i =>
      simp only [hk]
      have hp : docClose <+: t.drop i := lastIndexOfSub?_some_isPrefix t i hk
      have heq : t.take (i + 14) = t.take i ++ docClose := by
        have h14 : docClose.length = 14 := by decide
        rw [← h14]
        exact take_add_length_of_prefix_drop docClose_ne_nil hp
      rw [heq]
      exact Or.inl ⟨t.take i, rfl⟩
    | none =>
      simp only [hk]
      exact Or.inr ((lastIndexOfSub?_eq_none_iff docClose_ne_nil t).mp hk)

theorem repairStart_eq_self {t : Str} (h : DocStartOk t) : repairStart t = t := by
  unfold repairStart
  split
  · rfl
  · rename_i hcond
    have hnp : ¬ docOpen <+: t := fun hp => by
      rw [← isPrefixOf_iff] at hp
      simp_all
    cases h with
    | inl hp => exact absurd hp hnp
    | inr hn =>
      rw [(indexOfSub?_eq_none_iff docOpen_ne_nil t).mpr hn]

theorem repairEnd_eq_self {t : Str} (h : DocEndOk t) : repairEnd t = t := by
  unfold repairEnd
  split
  · rfl
  · rename_i hcond
    have hns : ¬ docClose <:+ t := fun hs => by
      rw [← List.isSuffixOf_iff_suffix] at hs
      simp_all
    cases h with
    | inl hs => exact absurd hs hns
    | inr hn =>
      rw [(lastIndexOfSub?_eq_none_iff docClose_ne_nil t).mpr hn]

theorem repairStart_headOk_lastOk {t : Str} (h1 : HeadOk t) (h2 : LastOk t) :
    HeadOk (repairStart t) ∧ LastOk (repairStart t) := by
  unfold repairStart
  split
  · exact ⟨h1, h2⟩
  · cases hk : indexOfSub? docOpen t with
    | some i =>
      simp only [hk]
      have hp : docOpen <+: t.drop i := indexOfSub?_some_isPrefix t i hk
      obtain ⟨z, hz⟩ := hp
      constructor
      · intro c hc
        rw [← hz] at hc
        rw [List.head?_append] at hc
        have hh : docOpen.head? = some '\\' := by decide
        rw [hh, Option.or_some] at hc
        simp only [Option.mem_def, Option.some.injEq] at hc
        subst hc
        decide
      · intro c hc
        have hne : t.drop i ≠ [] := by
          intro h0
          rw [← hz] at h0
          exact docOpen_ne_nil (List.append_eq_nil.mp h0).1
        rw [IsSuffix.getLast?_eq (List.drop_suffix i t) hne] at hc
        exact h2 c hc
    | none =>
      simp only [hk]
      exact ⟨h1, h2⟩

theorem repairEnd_headOk_lastOk {t : Str} (h1 : HeadOk t) (h2 : LastOk t) :
    HeadOk (repairEnd t) ∧ LastOk (repairEnd t) := by
  unfold repairEnd
  split
  · exact ⟨h1, h2⟩
  · cases hk : lastIndexOfSub? docClose t with
    | some i =>
      simp only [hk]
      have hp : docClose <+: t.drop i := lastIndexOfSub?_some_isPrefix t i hk
      have heq : t.take (i + 14) = t.take i ++ docClose := by
        have h14 : docClose.length = 14 := by decide
        rw [← h14]
        exact take_add_length_of_prefix_drop docClose_ne_nil hp
      rw [heq]
      constructor
      · intro c hc
        rw [List.head?_append] at hc
        cases hh : (t.take i).head? with
        | none =>
          rw [hh] at hc
          have hdc : docOpen.head? = some '\\' := by decide
          have hdc2 : docClose.head? = some '\\' := by decide
          rw [Option.none_or, hdc2] at hc
          simp only [Option.mem_def, Option.some.injEq] at hc
          subst hc
          decide
        | some d =>
          rw [hh, Option.or_some] at hc
          simp only [Option.mem_def, Option.some.injEq] at hc
          subst hc
          have hd : t.head? = some d := by
            cases i with
            | zero => simp at hh
            | succ m =>
              cases t with
              | nil => simp at hh
              | cons a t' =>
                simp only [List.take_succ_cons, List.head?_cons,
                  Option.some.injEq] at hh
                rw [hh]
                rfl
          exact h1 d (by rw [hd]; rfl)
      · intro c hc
        rw [List.getLast?_append] at hc
        have hg : docClose.getLast? = some '}' := by decide
        rw [hg, Option.or_some] at hc
        simp only [Option.mem_def, Option.some.injEq] at hc
        subst hc
        decide
    | none =>
      simp only [hk]
      exact ⟨h1, h2⟩

theorem extractMarkup_eq_chosen (s : Str) :
    extractMarkup s = repairEnd (repairStart (trimJS (chosenText s))) := by
  unfold extractMarkup chosenText
  cases hcb : codeBlockMatch s with
  | some interior => simp [hcb]
  | none =>
    cases hdm : docMatch s with
    | some span => simp [hcb, hdm]
    | none => simp [hcb, hdm]

theorem extractMarkup_trimmed (s : Str) :
    trimJS (extractMarkup s) = extractMarkup s := by
  rw [extractMarkup_eq_chosen]
  obtain ⟨c1, c2⟩ :=
    repairStart_headOk_lastOk (trimJS_headOk (chosenText s))
      (trimJS_lastOk (chosenText s))
  obtain ⟨d1, d2⟩ := repairEnd_headOk_lastOk c1 c2
  exact trimJS_eq_self_of d1 d2

theorem extractMarkup_docStartOk (s : Str) : DocStartOk (extractMarkup s) := by
  rw [extractMarkup_eq_chosen]
  exact repairEnd_preserves_docStartOk (repairStart_docStartOk _)

theorem extractMarkup_docEndOk (s : Str) : DocEndOk (extractMarkup s) := by
  rw [extractMarkup_eq_chosen]
  exact repairEnd_docEndOk _

/-! ## Claim theorems -/

/-- C2 (amended): the extraction function is idempotent on every input
whose first-pass output contains no topic-footer sentinel match and no
fenced-code-block match, and on which the document-span matcher either
fails or matches the entire output. (As originally stated the claim is
false: see the counterexample, where a second sentinel block survives
the first pass and is removed by the second.) -/
theorem extract_idempotent_on_stable_output (x : Str)
    (h1 : questionsMatch (extract x) = none)
    (h2 : codeBlockMatch (extract x) = none)
    (h3 : docMatch (extract x) = none ∨
      docMatch (extract x) = some (extract x)) :
    extract (extract x) = extract x := by
  have hTrim : trimJS (extract x) = extract x := extractMarkup_trimmed _
  have hS : DocStartOk (extract x) := extractMarkup_docStartOk _
  have hE : DocEndOk (extract x) := extractMarkup_docEndOk _
  show extractMarkup (parseQuestions (extract x)).1 = extract x
  have hpq : (parseQuestions (extract x)).1 = extract x := by
    simp [parseQuestions, h1]
  rw [hpq, extractMarkup_eq_chosen]
  have hch : chosenText (extract x) = extract x := by
    cases h3 with
    | inl hnone => simp [chosenText, h2, hnone]
    | inr hsome => simp [chosenText, h2, hsome]
  rw [hch, hTrim, repairStart_eq_self hS, repairEnd_eq_self hE]

/-- C2 counterexample: on a reply with two sentinel blocks, the first
pass removes only the first block and returns the second as markup; the
second pass removes that one too, so `extract (extract x) ≠ extract x`. -/
theorem extract_not_idempotent_on_double_sentinel :
    extract (extract ("[[QUESTION_TYPES: A]][[QUESTION_TYPES: B]]".toList)) ≠
      extract ("[[QUESTION_TYPES: A]][[QUESTION_TYPES: B]]".toList) := by
  decide

/-- C2 witness: a concrete document satisfies the amended hypotheses,
and extraction is idempotent on it. -/
theorem extract_idempotent_on_stable_output_witness :
    (questionsMatch (extract ("\\documentclass A \\end{document}".toList)) =
        none ∧
      codeBlockMatch (extract ("\\documentclass A \\end{document}".toList)) =
        none ∧
      docMatch (extract ("\\documentclass A \\end{document}".toList)) =
        some (extract ("\\documentclass A \\end{document}".toList))) ∧
    extract (extract ("\\documentclass A \\end{document}".toList)) =
      extract ("\\documentclass A \\end{document}".toList) :=
  ⟨⟨by decide, by decide, by decide⟩,
    extract_idempotent_on_stable_output _ (by decide) (by decide)
      (Or.inr (by decide))⟩

/-- C3 (amended): when the sentinel-stripped reply contains a fenced
block, extraction returns exactly the trimmed interior of the first
such block, provided that trimmed interior already starts at the
document-open marker (or contains none) and ends at the document-close
marker (or contains none); otherwise boundary repair trims it further,
as the counterexample shows. -/
theorem fenced_interior_extracted_when_repair_neutral (r interior : Str)
    (h : codeBlockMatch (parseQuestions r).1 = some interior)
    (h1 : docOpen.isPrefixOf (trimJS interior) = true ∨
      indexOfSub? docOpen (trimJS interior) = none)
    (h2 : docClose.isSuffixOf (trimJS interior) = true ∨
      lastIndexOfSub? docClose (trimJS interior) = none) :
    extract r = trimJS interior := by
  show extractMarkup (parseQuestions r).1 = trimJS interior
  rw [extractMarkup_eq_chosen]
  have hch : chosenText (parseQuestions r).1 = interior := by
    simp [chosenText, h]
  rw [hch]
  have hS : DocStartOk (trimJS interior) := by
    cases h1 with
    | inl hp => exact Or.inl (isPrefixOf_iff.mp hp)
    | inr hn =>
      exact Or.inr ((indexOfSub?_eq_none_iff docOpen_ne_nil _).mp hn)
  have hE : DocEndOk (trimJS interior) := by
    cases h2 with
    | inl hs => exact Or.inl (List.isSuffixOf_iff_suffix.mp hs)
    | inr hn =>
      exact Or.inr ((lastIndexOfSub?_eq_none_iff docClose_ne_nil _).mp hn)
  rw [repairStart_eq_self hS, repairEnd_eq_self hE]

/-- C3 counterexample: a fenced block whose interior has chatter before
`\documentclass` — the extracted markup is the boundary-repaired text,
not the trimmed interior of the block. -/
theorem fenced_interior_not_exact_under_repair :
    (codeBlockMatch
        (parseQuestions ("```\nchatter \\documentclass A\n```".toList)).1).map
        trimJS =
      some ("chatter \\documentclass A".toList) ∧
    extract ("```\nchatter \\documentclass A\n```".toList) ≠
      "chatter \\documentclass A".toList := by
  exact ⟨by decide, by decide⟩

/-- C3 witness: a fenced reply whose trimmed interior is a full
document is extracted exactly. -/
theorem fenced_interior_extracted_witness :
    extract ("x ```latex\n\\documentclass B \\end{document}\n``` y".toList) =
      trimJS ("\\documentclass B \\end{document}\n".toList) :=
  fenced_interior_extracted_when_repair_neutral _ _ (by decide)
    (Or.inl (by decide)) (Or.inl (by decide))

/-- C5 (amended): the extracted markup never contains the sentinel
opener provided the sentinel-stripped text does not. The original
claim fails because only the first regex match is removed: with two
sentinel blocks the second survives into the markup (see the
counterexample), and even a reply with a single match can leave a
complete block behind when the removal juxtaposes the surrounding
text, as in `[[QUESTION_TYPES[[QUESTION_TYPES: A]]: B]]`. -/
theorem markup_has_no_sentinel_when_stripped_clean (r : Str)
    (h : occursSub questionsOpen (parseQuestions r).1 = false) :
    occursSub questionsOpen (extract r) = false := by
  unfold occursSub at h ⊢
  have hmono : extract r <:+: (parseQuestions r).1 := extractMarkup_isInfix _
  cases hi : indexOfSub? questionsOpen (extract r) with
  | none => rfl
  | some i =>
    have hin : questionsOpen <:+: extract r := by
      rw [← indexOfSub?_isSome_iff (by decide : questionsOpen ≠ []) (extract r)]
      rw [hi]
      rfl
    have htot : questionsOpen <:+: (parseQuestions r).1 := hin.trans hmono
    have h2 := (indexOfSub?_isSome_iff (by decide : questionsOpen ≠ [])
      ((parseQuestions r).1)).mpr htot
    rw [h2] at h
    cases h

/-- C5 counterexample: with two sentinel blocks only the first is
removed, and the second survives into the final markup. -/
theorem second_sentinel_survives_markup :
    occursSub questionsOpen
      (extract ("[[QUESTION_TYPES: X]]mid[[QUESTION_TYPES: Y]]".toList)) =
      true := by
  decide

/-- C5 witness: on the specification's example reply, the stripped text
is sentinel-free and so is the final markup. -/
theorem markup_has_no_sentinel_witness :
    occursSub questionsOpen
      (extract
        ("\\documentclass A \\end{document}[[QUESTION_TYPES: Integration, Eigenvalues]]".toList)) =
      false :=
  markup_has_no_sentinel_when_stripped_clean _ (by decide)

/-- C4 (amended): with no sentinel the topic list is empty and the text
is unchanged (no error); with a sentinel, the topic list is the
captured interior split on commas with each entry trimmed and empty
entries dropped — duplicates are kept, contrary to the original claim —
and exactly the first occurrence of the matched sentinel substring is
removed from the text. -/
theorem topics_split_trim_filter_no_dedup (r : Str) :
    (questionsMatch r = none → parseQuestions r = (r, [])) ∧
    (∀ w inner, questionsMatch r = some (w, inner) →
      extractTopics r =
        ((inner.splitOn ',').map trimJS).filter (fun t => !t.isEmpty) ∧
      ∃ i, indexOfSub? w r = some i ∧
        (parseQuestions r).1 = r.take i ++ r.drop (i + w.length)) := by
  constructor
  · intro h
    simp [parseQuestions, h]
  · intro w inner h
    constructor
    · simp [extractTopics, parseQuestions, h]
    · obtain ⟨hinf, hne⟩ := questionsMatch_some h
      have hsome : (indexOfSub? w r).isSome = true :=
        (indexOfSub?_isSome_iff hne r).mpr hinf
      cases hi : indexOfSub? w r with
      | none => rw [hi] at hsome; cases hsome
      | some i =>
        refine ⟨i, rfl, ?_⟩
        simp [parseQuestions, h, replaceFirst, hi]

/-- C4 counterexample: duplicate entries in the sentinel are kept by
the code, while the claim's de-duplicating parse would collapse them. -/
theorem topics_keep_duplicates :
    extractTopics ("[[QUESTION_TYPES: A, A]]".toList) = [['A'], ['A']] ∧
    claimedTopics (" A, A".toList) = [['A']] ∧
    extractTopics ("[[QUESTION_TYPES: A, A]]".toList) ≠
      claimedTopics (" A, A".toList) := by
  exact ⟨by decide, by decide, by decide⟩

/-- C4 witness: the specification's example sentinel parses to its two
topics and the sentinel substring is removed. -/
theorem topics_split_witness :
    extractTopics
        ("\\documentclass A \\end{document}[[QUESTION_TYPES: Integration, Eigenvalues]]".toList) =
      (((" Integration, Eigenvalues".toList).splitOn ',').map trimJS).filter
        (fun t => !t.isEmpty) :=
  ((topics_split_trim_filter_no_dedup _).2
    ("[[QUESTION_TYPES: Integration, Eigenvalues]]".toList)
    (" Integration, Eigenvalues".toList) (by decide)).1

/-- C1: when the external compiler exits non-zero, throws, or produces
no output artifact, the POST handler still returns a 200 response whose
`tex` equals the extraction-stage markup unchanged, whose `pdfBase64`
is null, and whose `error` is a non-empty string; compilation failure
never propagates as a request failure. -/
theorem compile_failure_returns_degraded_200 (env : ReqEnv)
    (reply : GeminiReply)
    (hf : env.files.isEmpty = false)
    (hk : env.hasApiKey = true)
    (hp : (composePrompt (env.regenerateField == some ("true".toList))
        env.previousContext env.questions).isOk = true)
    (hm : env.modelCall = .ok reply)
    (hc : env.compile.isFailure = true) :
    (POST env).status = 200 ∧
    (POST env).tex =
      some (extractMarkup (parseQuestions (normalizeReply reply)).1) ∧
    (POST env).pdfBase64 = none ∧
    ∃ m, (POST env).error = some m ∧ m ≠ [] := by
  have hprefix : ("PDF compilation failed: ".toList : Str) ≠ [] := by decide
  unfold POST
  rw [hf, hk]
  simp only [Bool.false_eq_true, Bool.true_eq_false, if_false]
  cases hcp : composePrompt (env.regenerateField == some ("true".toList))
      env.previousContext env.questions with
  | error e => rw [hcp] at hp; cases hp
  | ok p =>
    rw [hm]
    cases hcc : env.compile with
    | success bytes =>
      rw [hcc] at hc
      simp [CompileOutcome.isFailure] at hc
    | execFail m =>
      refine ⟨rfl, rfl, rfl, _, rfl, ?_⟩
      intro h0
      exact hprefix (List.append_eq_nil.mp h0).1
    | noArtifact =>
      refine ⟨rfl, rfl, rfl, _, rfl, ?_⟩
      intro h0
      exact hprefix (List.append_eq_nil.mp h0).1

/-- C1 witness: a concrete request whose compiler produces no artifact
still gets a 200 with the markup, a null artifact, and an error. -/
theorem compile_failure_degraded_witness :
    (POST ⟨[['f']], true, none, none, none,
        .ok ⟨some ("\\documentclass A \\end{document}".toList), none, none⟩,
        .noArtifact⟩).status = 200 ∧
    (POST ⟨[['f']], true, none, none, none,
        .ok ⟨some ("\\documentclass A \\end{document}".toList), none, none⟩,
        .noArtifact⟩).tex =
      some (extractMarkup (parseQuestions (normalizeReply
        ⟨some ("\\documentclass A \\end{document}".toList), none, none⟩)).1) ∧
    (POST ⟨[['f']], true, none, none, none,
        .ok ⟨some ("\\documentclass A \\end{document}".toList), none, none⟩,
        .noArtifact⟩).pdfBase64 = none ∧
    ∃ m, (POST ⟨[['f']], true, none, none, none,
        .ok ⟨some ("\\documentclass A \\end{document}".toList), none, none⟩,
        .noArtifact⟩).error = some m ∧ m ≠ [] :=
  compile_failure_returns_degraded_200 _ _ rfl rfl (by decide) rfl rfl

/-- C7: in a regeneration request the previous-artifact text embedded
in the composed instruction is `substring(0, 15000)` of the field: for
text longer than the 15,000-character cap exactly the first 15,000
characters (exactly the cap length), and for text at or under the cap
the text unchanged. -/
theorem previous_context_truncated_to_cap (p : Str) (q : Option Str)
    (qs : Str) (hq : questionsSection q = .ok qs) :
    composePrompt true (some p) q =
      .ok (promptHeader ++ (regenPre ++ substringJS p 0 15000 ++ regenPost) ++
        promptMid ++ qs ++ promptFooter) ∧
    (15000 < p.length →
      substringJS p 0 15000 = p.take 15000 ∧
      (p.take 15000).length = 15000) ∧
    (p.length ≤ 15000 → substringJS p 0 15000 = p) := by
  have hz : substringJS p 0 15000 = p.take 15000 := by
    unfold substringJS
    simp only [Nat.zero_min, Nat.zero_max, List.drop_zero]
    exact take_min_length p 15000
  refine ⟨?_, fun hlen => ⟨hz, ?_⟩, fun hlen => ?_⟩
  · simp [composePrompt, regenSection, hq, bind, Except.bind, pure, Except.pure]
  · rw [List.length_take]
    omega
  · rw [hz]
    exact List.take_of_length_le hlen

/-- C7 witness: with no topic list and a short previous context, the
composed instruction embeds the context unchanged. -/
theorem previous_context_truncation_witness :
    composePrompt true (some ("PREV".toList)) none =
      .ok (promptHeader ++
        (regenPre ++ substringJS ("PREV".toList) 0 15000 ++ regenPost) ++
        promptMid ++ [] ++ promptFooter) ∧
    substringJS ("PREV".toList) 0 15000 = "PREV".toList :=
  ⟨(previous_context_truncated_to_cap ("PREV".toList) none [] rfl).1,
    (previous_context_truncated_to_cap ("PREV".toList) none [] rfl).2.2
      (by decide)⟩

/-- C8 (amended): reply normalization tries the callable text accessor,
then the truthy nested response-object accessor, then the truthy text
of the first non-reasoning candidate part, in that order, and when all
three fail it falls back to the empty string — not to a string
representation of the raw reply — without throwing. -/
theorem reply_shapes_priority_and_empty_fallback (r : GeminiReply) :
    (∀ s, r.textFn = some s → normalizeReply r = s) ∧
    (r.textFn = none → ∀ s, jsTruthy r.responseTextFn = some s →
      normalizeReply r = s) ∧
    (r.textFn = none → jsTruthy r.responseTextFn = none →
      ∀ s, jsTruthy (firstNonThoughtText r) = some s →
      normalizeReply r = s) ∧
    (r.textFn = none → jsTruthy r.responseTextFn = none →
      jsTruthy (firstNonThoughtText r) = none → normalizeReply r = []) := by
  refine ⟨?_, ?_, ?_, ?_⟩ <;> intros <;> simp_all [normalizeReply]

/-- C8 counterexample: on a reply matching none of the three shapes the
code produces the empty string, which is not a string representation of
the raw reply (JavaScript `String()` of a non-null object is never
empty). -/
theorem reply_fallback_empty_not_stringified :
    normalizeReply ⟨none, none, none⟩ = [] ∧
    normalizeReply ⟨none, none, none⟩ ≠
      claimedRawReplyString ⟨none, none, none⟩ := by
  exact ⟨rfl, by decide⟩

/-- C8 witness: each shape in priority order, and the empty fallback. -/
theorem reply_shapes_priority_witness :
    normalizeReply ⟨some ['a'], none, none⟩ = ['a'] ∧
    normalizeReply ⟨none, some ['b'], none⟩ = ['b'] ∧
    normalizeReply ⟨none, some [],
      some [⟨true, some ['x']⟩, ⟨false, some ['c']⟩]⟩ = ['c'] ∧
    normalizeReply ⟨none, none, none⟩ = [] :=
  ⟨(reply_shapes_priority_and_empty_fallback ⟨some ['a'], none, none⟩).1
      ['a'] rfl,
    (reply_shapes_priority_and_empty_fallback ⟨none, some ['b'], none⟩).2.1
      rfl ['b'] rfl,
    (reply_shapes_priority_and_empty_fallback ⟨none, some [],
      some [⟨true, some ['x']⟩, ⟨false, some ['c']⟩]⟩).2.2.1 rfl rfl ['c'] rfl,
    (reply_shapes_priority_and_empty_fallback ⟨none, none, none⟩).2.2.2
      rfl rfl rfl⟩

/-- C9 (amended): when the earlier accessors fail, the code skips
reasoning-flagged parts and uses the text of the first part not flagged
as reasoning — it does not concatenate all remaining parts — and a
reasoning-flagged part is never the one selected, so no reasoning
segment reaches the raw text used by extraction. -/
theorem first_nonreasoning_part_selected (r : GeminiReply)
    (ps : List GeminiPart)
    (h1 : r.textFn = none)
    (h2 : jsTruthy r.responseTextFn = none)
    (h3 : r.candidateParts = some ps) :
    normalizeReply r =
      (jsTruthy ((ps.find? (fun p => !p.thought)).bind
        GeminiPart.text)).getD [] ∧
    (∀ p, ps.find? (fun p => !p.thought) = some p → p.thought = false) := by
  constructor
  · have hf : firstNonThoughtText r =
        (ps.find? (fun p => !p.thought)).bind GeminiPart.text := by
      simp [firstNonThoughtText, h3]
    cases hx : jsTruthy (firstNonThoughtText r) with
    | none =>
      rw [hf] at hx
      simp [normalizeReply, h1, h2, hf, hx]
    | some s =>
      rw [hf] at hx
      simp [normalizeReply, h1, h2, hf, hx]
  · intro p hp
    have := List.find?_some hp
    simpa using this

/-- C9 counterexample: with a reasoning part and two non-reasoning
parts, the code uses only the first non-reasoning part's text, not the
concatenation of all remaining segments that the claim describes. -/
theorem nonreasoning_parts_not_concatenated :
    normalizeReply ⟨none, none,
      some [⟨true, some ['T']⟩, ⟨false, some ['A']⟩, ⟨false, some ['B']⟩]⟩ =
      ['A'] ∧
    specConcatNonThought ⟨none, none,
      some [⟨true, some ['T']⟩, ⟨false, some ['A']⟩, ⟨false, some ['B']⟩]⟩ =
      ['A', 'B'] ∧
    normalizeReply ⟨none, none,
      some [⟨true, some ['T']⟩, ⟨false, some ['A']⟩, ⟨false, some ['B']⟩]⟩ ≠
      specConcatNonThought ⟨none, none,
        some [⟨true, some ['T']⟩, ⟨false, some ['A']⟩, ⟨false, some ['B']⟩]⟩ := by
  exact ⟨rfl, rfl, by decide⟩

/-- C9 witness: the reasoning part is skipped and the first
non-reasoning part supplies the text. -/
theorem first_nonreasoning_part_witness :
    normalizeReply ⟨none, none,
      some [⟨true, some ['T']⟩, ⟨false, some ['A']⟩]⟩ =
      (jsTruthy (([⟨true, some ['T']⟩,
        (⟨false, some ['A']⟩ : GeminiPart)].find? (fun p => !p.thought)).bind
        GeminiPart.text)).getD [] :=
  (first_nonreasoning_part_selected
    ⟨none, none, some [⟨true, some ['T']⟩, ⟨false, some ['A']⟩]⟩
    [⟨true, some ['T']⟩, ⟨false, some ['A']⟩] rfl rfl rfl).1

/-- C10: a request whose `regenerate` field equals `'true'` but which
carries no `previousContext` field dereferences the absent (null) field
in the template literal; the TypeError escapes to the outer catch and
the request returns status 500 with that error, instead of proceeding
with an empty regeneration block. -/
theorem regen_without_context_returns_500 (env : ReqEnv)
    (hf : env.files.isEmpty = false)
    (hk : env.hasApiKey = true)
    (hr : env.regenerateField = some ("true".toList))
    (hp : env.previousContext = none) :
    (POST env).status = 500 ∧ (POST env).error = some nullSubstringMsg := by
  unfold POST
  rw [hf, hk, hr, hp]
  simp only [Bool.false_eq_true, Bool.true_eq_false, if_false]
  have hbeq : (some ("true".toList) == some ("true".toList)) = true := by
    decide
  rw [hbeq]
  have hcp : composePrompt true none env.questions =
      .error nullSubstringMsg := by
    simp [composePrompt, regenSection, bind, Except.bind]
  rw [hcp]
  exact ⟨rfl, rfl⟩

/-- C10 witness: a concrete regeneration request without previous
context fails with 500. -/
theorem regen_without_context_witness :
    (POST ⟨[['f']], true, some ("true".toList), none, none,
        .ok ⟨some ['x'], none, none⟩, .noArtifact⟩).status = 500 ∧
    (POST ⟨[['f']], true, some ("true".toList), none, none,
        .ok ⟨some ['x'], none, none⟩, .noArtifact⟩).error =
      some nullSubstringMsg :=
  regen_without_context_returns_500 _ rfl rfl rfl rfl

end ProcessPdf
